import Mathlib

/-!
Verification of the nanoHTTP ASGI micro framework.

The development shallowly embeds the request pipeline of
`src/nanohttp.py` together with `src/response.py`, `src/request.py` and
`src/enums.py`.  Pure Python functions become Lean functions; the
in-place mutation of Python dictionaries and lists becomes explicit
state passing over insertion-ordered association lists (which is the
observable semantics of a Python `dict`).  External collaborators named
out of scope by the design (the regular-expression engine, the cookie
jar parser, `json.loads`, `parse_qs`) are modelled as function-valued
parameters; everything the repository itself implements is translated
from the source.
-/

set_option autoImplicit false

/-- Python `str.lower()`: character-wise case folding, written directly
on the character list so that it evaluates by kernel reduction. -/
def String.pyLower (s : String) : String := ⟨s.data.map Char.toLower⟩

namespace NanoHTTP

/-! ## Python dictionary semantics

A Python `dict` is an insertion-ordered mapping.  We model it as an
association list whose keys are unique by construction; the operations
below reproduce `dict` behaviour: replacement keeps the original
position of the key, fresh keys are appended at the end. -/

/-- Python `d[key]` lookup (as `Option`): first entry with the key. -/
def dictFind? {α : Type} : List (String × α) → String → Option α
  | [], _ => none
  | (k, v) :: rest, key => if k = key then some v else dictFind? rest key

/-- Python `d[key] = v`: replace in place when the key is present,
append at the end when it is absent. -/
def dictSet {α : Type} : List (String × α) → String → α → List (String × α)
  | [], key, v => [(key, v)]
  | (k, w) :: rest, key, v =>
    if k = key then (k, v) :: rest else (k, w) :: dictSet rest key v

/-- Python `d.setdefault(key, dflt)`: returns the stored value and the
possibly extended dictionary. -/
def dictSetdefault {α : Type} (m : List (String × α)) (key : String) (dflt : α) :
    α × List (String × α) :=
  match dictFind? m key with
  | some v => (v, m)
  | none => (dflt, m ++ [(key, dflt)])

/-- Python `d.pop(key, default)`: removed value (when present) and the
remaining dictionary. -/
def dictPop {α : Type} : List (String × α) → String → Option α × List (String × α)
  | [], _ => (none, [])
  | (k, v) :: rest, key =>
    if k = key then (some v, rest)
    else
      let r := dictPop rest key
      (r.1, (k, v) :: r.2)

/-- Python `d.update(src)` where `src` is iterated as key/value pairs:
sequential `dictSet` of every entry. -/
def dictUpdate {α : Type} (m src : List (String × α)) : List (String × α) :=
  src.foldl (fun acc kv => dictSet acc kv.1 kv.2) m

/-! ## Python values stored in a MultiDict

`MultiDict.__init__` branches on `isinstance(v, list)`, so the value
universe must distinguish list values from everything else. -/

/-- A dynamically typed Python value as far as `MultiDict` observes it:
either a non-list value (`atom`) or a list of such values. -/
inductive Val where
  | atom (n : Nat)
  | vlist (l : List Nat)
deriving DecidableEq

/-- Python `isinstance(v, list)`. -/
def Val.isList : Val → Bool
  | .vlist _ => true
  | _ => false

/-- The value sequence `MultiDict.__init__` stores for a dict value:
`[v] if not isinstance(v, list) else v[:]`. -/
def Val.asList : Val → List Val
  | .vlist l => l.map Val.atom
  | v => [v]

/-! ## MultiDict (`src/nanohttp.py` lines 435-551)

`class MultiDict(dict)` keeps, per lowercased key, the Python list of
all inserted values.  The inherited `dict` state is the association
list; methods reproduce the source line by line. -/

/-- The `dict` state underlying a `MultiDict`: lowercased keys mapped to
their value lists. -/
abbrev MultiDict (α : Type) : Type := List (String × List α)

namespace MultiDict

variable {α : Type}

/-- Shared body of `__setitem__` and of the pairs branch of `__init__`:
`super().setdefault(key, []).append(value)` for an already lowercased
key (append to the stored list, creating it when absent). -/
def appendValue (m : MultiDict α) (key : String) (v : α) : MultiDict α :=
  match dictFind? m key with
  | some l => dictSet m key (l ++ [v])
  | none => m ++ [(key, [v])]

/-- `__setitem__`: `super().setdefault(key.lower(), []).append(value)`. -/
def setitem (m : MultiDict α) (key : String) (v : α) : MultiDict α :=
  appendValue m key.pyLower v

/-- `__getitem__`: `super().__getitem__(key.lower())[-1]`; `none` models
the `KeyError`/`IndexError` paths. -/
def getitem (m : MultiDict α) (key : String) : Option α :=
  (dictFind? m key.pyLower).bind List.getLast?

/-- `get`: `super().get(key.lower(), [default])[-1]`; `none` models the
`IndexError` on an empty stored list. -/
def get (m : MultiDict α) (key : String) (dflt : α) : Option α :=
  ((dictFind? m key.pyLower).getD [dflt]).getLast?

/-- The method `_get` of the source: `super().get(key.lower(), list(default))`. -/
def allGet (m : MultiDict α) (key : String) (dflt : List α) : List α :=
  (dictFind? m key.pyLower).getD dflt

/-- `setdefault`: `super().setdefault(key.lower(), [default])[-1]`,
returning the read value and the new state. -/
def setdefault (m : MultiDict α) (key : String) (dflt : α) : Option α × MultiDict α :=
  let r := dictSetdefault m key.pyLower [dflt]
  (r.1.getLast?, r.2)

/-- `pop`: when more than one value is stored, `values.pop()` removes
only the most recent value in place (`Sum.inl`); otherwise
`super().pop(key.lower(), default)` removes the whole key and returns
the stored list (`Sum.inr`); `none` models the default being returned. -/
def pop (m : MultiDict α) (key : String) : Option (α ⊕ List α) × MultiDict α :=
  let values := (dictFind? m key.pyLower).getD []
  if 1 < values.length then
    (values.getLast?.map Sum.inl, dictSet m key.pyLower values.dropLast)
  else
    let r := dictPop m key.pyLower
    (r.1.map Sum.inr, r.2)

/-- The method `_update` of the source: the raw `dict.update`. -/
def rawUpdate (m : MultiDict α) (src : List (String × List α)) : MultiDict α :=
  dictUpdate m src

/-- `__init__` from a sequence of pairs:
`for key, value in mapping: self._setdefault(key.lower(), []).append(value)`. -/
def ofPairs (ps : List (String × α)) : MultiDict α :=
  ps.foldl (fun acc kv => appendValue acc kv.1.pyLower kv.2) []

/-- `__init__` from a Python dict over dynamically typed values:
`{k.lower(): [v] if not isinstance(v, list) else v[:] for k, v in mapping.items()}`. -/
def ofDictVal (d : List (String × Val)) : MultiDict Val :=
  d.foldl (fun acc kv => dictSet acc kv.1.pyLower kv.2.asList) []

/-- The dict branch of `__init__` specialised to value types that are
never Python lists (header strings): every value becomes a singleton. -/
def ofDictStr (d : List (String × α)) : MultiDict α :=
  d.foldl (fun acc kv => dictSet acc kv.1.pyLower [kv.2]) []

/-- The dict branch of `__init__` specialised to inputs whose values are
all Python lists (`parse_qs` output, and the copy branch for an existing
MultiDict, which stores `v[:]`). -/
def ofDictList (d : List (String × List α)) : MultiDict α :=
  d.foldl (fun acc kv => dictSet acc kv.1.pyLower kv.2) []

/-- `update`: `new = {}; new.update(*args); super().update(MultiDict(new))`.
The source collapses the update source into a plain dict and then
performs a raw `dict.update` with the normalized MultiDict. -/
def update (m : MultiDict Val) (src : List (String × Val)) : MultiDict Val :=
  let new := dictUpdate [] src
  dictUpdate m (ofDictVal new)

end MultiDict

/-! ## Enums (`src/enums.py`) and status phrases -/

/-- `MediaType.JSON`. -/
def MediaType.JSON : String := "application/json"

/-- `MediaType.HTML`. -/
def MediaType.HTML : String := "text/html"

/-- `RequestEncodingType.URL_ENCODED`. -/
def RequestEncodingType.URL_ENCODED : String := "application/x-www-form-urlencoded"

/-- `http.HTTPStatus(code).phrase` for the status codes appearing in
this development; `none` models the `ValueError` on an unknown code. -/
def statusPhrase : Nat → Option String
  | 200 => some "OK"
  | 201 => some "Created"
  | 204 => some "No Content"
  | 400 => some "Bad Request"
  | 401 => some "Unauthorized"
  | 404 => some "Not Found"
  | 405 => some "Method Not Allowed"
  | 413 => some "Request Entity Too Large"
  | 500 => some "Internal Server Error"
  | _ => none

/-! ## JSON serialization

`json.dumps` is an external codec; we model it on string-keyed mappings
of simple values, which is all the pipeline ever serializes. -/

/-- A JSON-serializable value for handler-returned mappings. -/
inductive JVal where
  | jstr (s : String)
  | jnum (n : Int)
deriving DecidableEq

/-- Double-quote a JSON string (escaping elided: keys in this
development contain no special characters). -/
def jquote (s : String) : String := "\"" ++ s ++ "\""

/-- Serialize one JSON value. -/
def jvalStr : JVal → String
  | .jstr s => jquote s
  | .jnum n => toString n

/-- Model of the default serializer `json.dumps` on a mapping. -/
def defaultDumps (d : List (String × JVal)) : String :=
  "\x7b" ++ String.intercalate ", " (d.map (fun kv => jquote kv.1 ++ ": " ++ jvalStr kv.2)) ++ "\x7d"

/-! ## Response (`src/response.py`) -/

/-- The `headers` argument of `Response.__init__`: `None`, an existing
`MultiDict` (copy branch of `MultiDict.__init__`), or a flat dict of
header strings (dict branch). -/
inductive HdrArg where
  | noneArg
  | mdArg (m : MultiDict String)
  | dictArg (d : List (String × String))

/-- An HTTP response: `status`, `description`, `headers`, `cookies`
(name/value pairs of the `SimpleCookie` jar), `body` (bytes modelled as
a string) and the pluggable `dumps` serializer. -/
structure Resp where
  status : Nat
  description : String
  headers : MultiDict String
  cookies : List (String × String)
  body : String
  dumps : List (String × JVal) → String

/-- `Response.__init__` with the cookie jar and `dumps` left at their
defaults (no caller in the source passes them): wraps the headers in a
fresh `MultiDict` and inserts the default HTML content type if absent. -/
def Resp.make (status : Nat) (hdrs : HdrArg) (body : String) : Resp :=
  let hs : MultiDict String :=
    match hdrs with
    | .noneArg => []
    | .mdArg m => MultiDict.ofDictList m
    | .dictArg d => MultiDict.ofDictStr d
  { status := status
    description := (statusPhrase status).getD ""
    headers := (MultiDict.setdefault hs "content-type" (MediaType.HTML ++ "; charset=utf-8")).2
    cookies := []
    body := body
    dumps := defaultDumps }

/-- A handler or hook return value: the shapes `Response.from_any`
dispatches on. -/
inductive Ret where
  | none
  | int (n : Nat)
  | str (s : String)
  | bytes (b : String)
  | dict (d : List (String × JVal))
  | resp (r : Resp)

/-- Python truthiness of a `Ret` (the `if ret := ...` guards). -/
def Ret.truthy : Ret → Bool
  | .none => false
  | .int n => n != 0
  | .str s => s != ""
  | .bytes b => b != ""
  | .dict d => !d.isEmpty
  | .resp _ => true

/-- `Response.from_any`. The dict branch serializes with
`cls().dumps(any)` — the `dumps` field of a fresh default `Response`,
not any application-configured serializer.  `none` models the uncaught
`ValueError` of `HTTPStatus(any)` on an unknown integer status. -/
def Resp.from_any : Ret → Option Resp
  | .int n => (statusPhrase n).map (fun p => Resp.make n .noneArg p)
  | .str s => some (Resp.make 200 .noneArg s)
  | .bytes b => some (Resp.make 200 .noneArg b)
  | .dict d =>
      some (Resp.make 200 (.dictArg [("content-type", MediaType.JSON)])
        ((Resp.make 200 .noneArg "").dumps d))
  | .resp r => some r
  | .none => some (Resp.make 204 .noneArg "")

/-! ## Request (`src/request.py`) -/

/-- An HTTP request; `body` holds bytes modelled as a string, `json`
the decoded JSON body (its value is opaque to the pipeline). -/
structure Request where
  method : String
  path : String
  ip : String
  params : List (String × String)
  args : MultiDict String
  headers : MultiDict String
  body : String
  json : Option (List (String × JVal))
  form : MultiDict String
  state : List (String × String)

/-! ## The application (`src/nanohttp.py`) -/

/-- A compiled route pattern.  The regular-expression engine is an
external collaborator, so a compiled pattern is modelled by its
`fullmatch` function, returning `groupdict()` (the named captures) on a
full match of the path and `none` otherwise. -/
structure Pattern where
  fullmatch : String → Option (List (String × String))

/-- A route handler or before-hook: may return a value to normalize
(`Except.ok`) or raise a `Response` (`Except.error`).  `asyncfy` makes
sync and async functions indistinguishable, so it is not modelled. -/
abbrev Handler : Type := Request → Except Resp Ret

/-- An after-hook: called with the request and the current response. -/
abbrev AfterHook : Type := Request → Resp → Except Resp Ret

/-- The `Application` state after route compilation: compiled routes in
registration order, hook chains, the stored (and, as it turns out,
never consulted) output serializer, and the body size cap. -/
structure App where
  routes : List (Pattern × List (String × Handler))
  before : List Handler
  after : List AfterHook
  serializer : List (String × JVal) → String
  max_content : Nat

/-- A raw header name or value from the wire: a byte string that either
decodes to text or raises `UnicodeDecodeError`. -/
inductive HVal where
  | valid (s : String)
  | invalid
deriving DecidableEq

/-- Python `bytes.decode()`. -/
def HVal.decode : HVal → Option String
  | .valid s => some s
  | .invalid => none

/-- The HTTP connection scope: request metadata delivered by the
server.  `query` is the `parse_qs(unquote(query_string))` result (query
parsing is external). -/
structure Scope where
  method : String
  path : String
  client : String
  query : List (String × List String)
  headers : List (HVal × HVal)
  state : List (String × String)

/-- One `http.request` event: a body chunk and the more-body flag. -/
structure Chunk where
  body : String
  more_body : Bool

/-- External collaborators of the transaction pipeline: the cookie jar
parser (`SimpleCookie.load`, which either succeeds or raises
`CookieError`), `json.loads` over the decoded body (`none` models
`UnicodeDecodeError`/`JSONDecodeError`), and `parse_qs` over the
unquoted body. -/
structure Ext where
  cookieLoadOk : String → Bool
  jsonLoads : String → Option (List (String × JVal))
  parseQS : String → List (String × List String)

/-- Outcome of the body assembly loop, together with the accumulated
body at that point. -/
inductive BodyOut where
  | ok (b : String)
  | tooLarge (b : String)
  | starved
deriving DecidableEq

/-- The body assembly loop (`src/nanohttp.py` lines 353-359): receive a
chunk, append it, raise 413 as soon as the accumulated length exceeds
`max_content`, stop at the first chunk without `more_body`.  Returns
the outcome and the number of chunk events consumed; `starved` models a
transport that stops delivering events. -/
def bodyLoop (maxContent : Nat) (acc : String) : List Chunk → BodyOut × Nat
  | [] => (.starved, 0)
  | c :: rest =>
    let b := acc ++ c.body
    if maxContent < b.length then (.tooLarge b, 1)
    else if c.more_body then
      let r := bodyLoop maxContent b rest
      (r.1, r.2 + 1)
    else (.ok b, 1)

/-- Result of one pipeline stage: continue with the updated request,
short-circuit with a raised `Response` (carrying the request as built
so far), or die on an exception that is not a `Response`. -/
inductive Step (β : Type) where
  | next (a : β)
  | early (req : Request) (r : Resp)
  | fatal

/-- Decode the raw header pairs (`[[k.decode(), v.decode()] ...]`);
any failure is the `UnicodeDecodeError` path. -/
def decodePairs : List (HVal × HVal) → Option (List (String × String))
  | [] => some []
  | (k, v) :: rest =>
    match k.decode, v.decode, decodePairs rest with
    | some ks, some vs, some r => some ((ks, vs) :: r)
    | _, _, _ => none

/-- The fresh request built from the connection scope
(`Request(method=..., path=..., ip=..., args=parse_qs(...), state=state.copy())`). -/
def initRequest (scope : Scope) : Request :=
  { method := scope.method
    path := scope.path
    ip := scope.client
    params := []
    args := MultiDict.ofDictList scope.query
    headers := []
    body := ""
    json := Option.none
    form := []
    state := scope.state }

/-- Header construction stage: a decoding failure raises
`Response(400)`. -/
def headersPhase (scope : Scope) (req : Request) : Step Request :=
  match decodePairs scope.headers with
  | Option.none => .early req (Resp.make 400 .noneArg "")
  | some hs => .next { req with headers := MultiDict.ofPairs hs }

/-- Cookie stage: `request.cookies.load(request.headers.get("cookie", ""))`;
a `CookieError` raises `Response(400)`. -/
def cookiePhase (e : Ext) (req : Request) : Step Request :=
  match MultiDict.get req.headers "cookie" "" with
  | Option.none => .fatal
  | some ck =>
    if e.cookieLoadOk ck then .next req
    else .early req (Resp.make 400 .noneArg "")

/-- Python `needle in hay` on lists of characters. -/
def containsList (needle : List Char) : List Char → Bool
  | [] => needle.isEmpty
  | c :: rest => needle.isPrefixOf (c :: rest) || containsList needle rest

/-- Python `needle in hay` on strings (substring test). -/
def strContains (hay needle : String) : Bool :=
  containsList needle.toList hay.toList

/-- Content decoding stage: a content type containing the JSON marker
decodes the body as JSON (failure raises 400), else the URL-encoded
marker parses the body as form data, else the body stays raw. -/
def contentPhase (e : Ext) (req : Request) : Step Request :=
  match MultiDict.get req.headers "content-type" "" with
  | Option.none => .fatal
  | some ct =>
    if strContains ct MediaType.JSON then
      match e.jsonLoads req.body with
      | Option.none => .early req (Resp.make 400 .noneArg "")
      | some j => .next { req with json := some j }
    else if strContains ct RequestEncodingType.URL_ENCODED then
      .next { req with form := MultiDict.ofDictList (e.parseQS req.body) }
    else .next req

/-- Outcome of the before-chain. -/
inductive BeforeOut where
  | cont
  | early (r : Resp)
  | fatal

/-- The before-chain: each hook may raise a `Response`, or return a
truthy value which is normalized and raised
(`if ret := await asyncfy(func, request): raise Response.from_any(ret)`). -/
def runBefore : List Handler → Request → BeforeOut
  | [], _ => .cont
  | f :: fs, req =>
    match f req with
    | .error r => .early r
    | .ok ret =>
      if ret.truthy then
        match Resp.from_any ret with
        | some r => .early r
        | Option.none => .fatal
      else runBefore fs req

/-- Outcome of the route phase and of the whole try-block: the request
as last mutated, the current response, and whether a route handler was
invoked. -/
inductive PhaseOut where
  | done (req : Request) (resp : Resp) (handlerCalled : Bool)
  | fatal

/-- The route loop (`for route, methods in self._routes.items()` with a
`for ... else` 404 arm): the first pattern that fully matches the path
is taken; its named captures become `request.params`; a registered
method dispatches to the handler, a missing one yields 405 with an
`Allow` header joining the registered method names. -/
def routePhase : List (Pattern × List (String × Handler)) → Request → PhaseOut
  | [], req => .done req (Resp.make 404 .noneArg "") false
  | (pat, methods) :: rest, req =>
    match pat.fullmatch req.path with
    | Option.none => routePhase rest req
    | some g =>
      let req2 := { req with params := g }
      match dictFind? methods req2.method with
      | some f =>
        match f req2 with
        | .error r => .done req2 r true
        | .ok ret =>
          match Resp.from_any ret with
          | some resp => .done req2 resp true
          | Option.none => .fatal
      | Option.none =>
        let resp := Resp.make 405 .noneArg ""
        .done req2
          { resp with
            headers := MultiDict.setitem resp.headers "allow"
              (String.intercalate ", " (methods.map Prod.fst)) }
          false

/-- Outcome of the try-block around steps 2-7 of the transaction,
additionally carrying the number of body chunk events consumed. -/
inductive TryOut where
  | done (req : Request) (resp : Resp) (handlerCalled : Bool) (consumed : Nat)
  | fatal

/-- The protected part of the HTTP branch of `Application.__call__`
(header decode, cookie parse, body assembly, content decode, before
chain, route dispatch), with `except Response` folded into the `done`
outcome. -/
def tryPhase (app : App) (e : Ext) (scope : Scope) (chunks : List Chunk) : TryOut :=
  match headersPhase scope (initRequest scope) with
  | .early req r => .done req r false 0
  | .fatal => .fatal
  | .next req1 =>
    match cookiePhase e req1 with
    | .early req r => .done req r false 0
    | .fatal => .fatal
    | .next req2 =>
      match bodyLoop app.max_content "" chunks with
      | (.starved, _) => .fatal
      | (.tooLarge b, n) => .done { req2 with body := b } (Resp.make 413 .noneArg "") false n
      | (.ok b, n) =>
        match contentPhase e { req2 with body := b } with
        | .early req r => .done req r false n
        | .fatal => .fatal
        | .next req3 =>
          match runBefore app.before req3 with
          | .fatal => .fatal
          | .early r => .done req3 r false n
          | .cont =>
            match routePhase app.routes req3 with
            | .fatal => .fatal
            | .done req4 r hc => .done req4 r hc n

/-- The after-chain together with its surrounding `except Response`:
a raised `Response`, or a truthy return value normalized and raised,
replaces the current response and ends the chain; `none` models a
normalization `ValueError` escaping uncaught. -/
def afterPhase : List AfterHook → Request → Resp → Option Resp
  | [], _, resp => some resp
  | f :: fs, req, resp =>
    match f req resp with
    | .error r => some r
    | .ok ret =>
      if ret.truthy then Resp.from_any ret
      else afterPhase fs req resp

/-- The `Set-Cookie` header values produced from the response cookie
jar (`header.split(": ", maxsplit=1)[1]` over `cookies.output()`). -/
def cookieHeaderValues (cs : List (String × String)) : List String :=
  cs.map (fun kv => kv.1 ++ "=" ++ kv.2)

/-- Response finalization: `setdefault` of `content-length` to the body
length, then the raw `_update` inserting the whole `set-cookie` value
list.  Header values are modelled after the `str(v)` conversion the
emit step applies. -/
def finalize (resp : Resp) : Resp :=
  let hs := (MultiDict.setdefault resp.headers "content-length" (toString resp.body.length)).2
  { resp with headers := MultiDict.rawUpdate hs [("set-cookie", cookieHeaderValues resp.cookies)] }

/-- The observable outcome of one HTTP transaction. -/
structure TxnResult where
  response : Resp
  handlerCalled : Bool
  chunksConsumed : Nat

/-- The HTTP branch of `Application.__call__`: try-block, after-chain,
finalization.  `none` models an exception escaping the transaction
uncaught. -/
def httpCall (app : App) (e : Ext) (scope : Scope) (chunks : List Chunk) : Option TxnResult :=
  match tryPhase app e scope chunks with
  | .fatal => Option.none
  | .done req resp hc n =>
    match afterPhase app.after req resp with
    | Option.none => Option.none
    | some resp2 =>
      some { response := finalize resp2, handlerCalled := hc, chunksConsumed := n }

/-! ## The lifespan branch of `Application.__call__` -/

/-- A Python exception raised by a lifecycle function, carrying the
class name and the message used by `f-string` formatting. -/
structure PyErr where
  name : String
  msg : String

/-- The failure description `f"{type(e).__name__}: {e}"`. -/
def errMessage (e : PyErr) : String := e.name ++ ": " ++ e.msg

/-- A startup or shutdown function: transforms the process state or
raises. -/
abbrev LifeFn : Type := List (String × String) → Except PyErr (List (String × String))

/-- An inbound lifespan event. -/
inductive LSEvent where
  | startup
  | shutdown

/-- An outbound lifespan event. -/
inductive OutEvent where
  | startupComplete
  | startupFailed (message : String)
  | shutdownComplete
  | shutdownFailed (message : String)
deriving DecidableEq

/-- Run lifecycle functions in registration order against the process
state, stopping at the first failure. -/
def runFns : List LifeFn → List (String × String) → Except PyErr (List (String × String))
  | [], st => .ok st
  | f :: fs, st =>
    match f st with
    | .error e => .error e
    | .ok st2 => runFns fs st2

/-- The lifespan loop (`src/nanohttp.py` lines 295-329): on startup,
run the startup functions (success also compiles the route table, not
tracked here) and continue looping; on shutdown, run the shutdown
functions and leave the loop — on failure only `shutdown.failed` is
sent, on success only `shutdown.complete`.  Returns the emitted
events. -/
def lifespanLoop (startupFns shutdownFns : List LifeFn)
    (st : List (String × String)) : List LSEvent → List OutEvent
  | [] => []
  | ev :: rest =>
    match ev with
    | .startup =>
      match runFns startupFns st with
      | .error e => [.startupFailed (errMessage e)]
      | .ok st2 => .startupComplete :: lifespanLoop startupFns shutdownFns st2 rest
    | .shutdown =>
      match runFns shutdownFns st with
      | .error e => [.shutdownFailed (errMessage e)]
      | .ok _ => [.shutdownComplete]

/-! ## Helper lemmas on the dictionary model -/

section DictLemmas

variable {α : Type}

/-- The key sequence of a dictionary. -/
def keys (m : List (String × α)) : List String := m.map Prod.fst

theorem dictFind?_dictSet_self (m : List (String × α)) (k : String) (v : α) :
    dictFind? (dictSet m k v) k = some v := by
  induction m with
  | nil => simp [dictSet, dictFind?]
  | cons kv rest ih =>
    obtain ⟨k0, v0⟩ := kv
    by_cases h : k0 = k <;> simp [dictSet, dictFind?, h, ih]

theorem dictFind?_dictSet_ne (m : List (String × α)) (k k' : String) (v : α)
    (h : k' ≠ k) : dictFind? (dictSet m k v) k' = dictFind? m k' := by
  have hne : k ≠ k' := fun hh => h hh.symm
  induction m with
  | nil => simp [dictSet, dictFind?, hne]
  | cons kv rest ih =>
    obtain ⟨k0, v0⟩ := kv
    by_cases h0 : k0 = k
    · subst h0
      simp [dictSet, dictFind?, hne]
    · simp [dictSet, dictFind?, h0, ih]

theorem dictFind?_append_of_none (m l2 : List (String × α)) (k : String)
    (h : dictFind? m k = Option.none) : dictFind? (m ++ l2) k = dictFind? l2 k := by
  induction m with
  | nil => simp
  | cons kv rest ih =>
    obtain ⟨k0, v0⟩ := kv
    by_cases h0 : k0 = k
    · simp [dictFind?, h0] at h
    · simp [dictFind?, h0] at h ⊢
      exact ih h

theorem keys_dictSet (m : List (String × α)) (k : String) (v : α) :
    keys (dictSet m k v) = if k ∈ keys m then keys m else keys m ++ [k] := by
  induction m with
  | nil => simp [dictSet, keys]
  | cons kv rest ih =>
    obtain ⟨k0, v0⟩ := kv
    by_cases h0 : k0 = k
    · subst h0
      simp [dictSet, keys]
    · have h0' : ¬k = k0 := fun hh => h0 hh.symm
      simp only [dictSet, if_neg h0, keys, List.map_cons] at ih ⊢
      rw [ih]
      by_cases hm : k ∈ List.map Prod.fst rest <;> simp [hm, h0']

theorem nodup_keys_dictSet (m : List (String × α)) (k : String) (v : α)
    (h : (keys m).Nodup) : (keys (dictSet m k v)).Nodup := by
  rw [keys_dictSet]
  by_cases hm : k ∈ keys m
  · simpa [hm]
  · simpa [hm, List.nodup_append] using h

/-- The value of the last occurrence of a key in a key/value sequence:
what iterating `dict.update` over the sequence leaves behind. -/
def lastVal? : List (String × α) → String → Option α
  | [], _ => none
  | (k0, v0) :: rest, k =>
    match lastVal? rest k with
    | some v => some v
    | none => if k0 = k then some v0 else none

theorem dictFind?_dictUpdate (src : List (String × α)) (m : List (String × α)) (k : String) :
    dictFind? (dictUpdate m src) k =
      match lastVal? src k with
      | some v => some v
      | none => dictFind? m k := by
  induction src generalizing m with
  | nil => simp [dictUpdate, lastVal?]
  | cons kv rest ih =>
    obtain ⟨k0, v0⟩ := kv
    have step : dictUpdate m ((k0, v0) :: rest) = dictUpdate (dictSet m k0 v0) rest := by
      simp [dictUpdate]
    rw [step, ih]
    cases hrest : lastVal? rest k with
    | some v => simp [lastVal?, hrest]
    | none =>
      by_cases h0 : k0 = k
      · subst h0
        simp [lastVal?, hrest, dictFind?_dictSet_self]
      · simp [lastVal?, hrest, h0, dictFind?_dictSet_ne m k0 k v0 (fun hh => h0 hh.symm)]

theorem lastVal?_eq_dictFind? (src : List (String × α)) (k : String)
    (h : (keys src).Nodup) : lastVal? src k = dictFind? src k := by
  induction src with
  | nil => rfl
  | cons kv rest ih =>
    obtain ⟨k0, v0⟩ := kv
    simp only [keys, List.map_cons, List.nodup_cons] at h
    by_cases h0 : k0 = k
    · subst h0
      have : dictFind? rest k0 = Option.none := by
        cases hf : dictFind? rest k0 with
        | none => rfl
        | some v =>
          exfalso
          apply h.1
          clear ih h
          induction rest with
          | nil => simp [dictFind?] at hf
          | cons kv2 r2 ih2 =>
            obtain ⟨k2, v2⟩ := kv2
            by_cases h2 : k2 = k0
            · simp [keys, h2]
            · simp [dictFind?, h2] at hf
              simp [keys] at ih2 ⊢
              right
              have := ih2 hf
              simpa [keys] using this
      rw [← ih h.2] at this
      simp [lastVal?, dictFind?, this]
    · have : lastVal? rest k = dictFind? rest k := ih h.2
      cases hrest : dictFind? rest k with
      | some v => simp [lastVal?, dictFind?, this, hrest, h0]
      | none => simp [lastVal?, dictFind?, this, hrest, h0]

theorem getLast?_append_singleton {β : Type} (l : List β) (a : β) :
    (l ++ [a]).getLast? = some a := by
  induction l with
  | nil => rfl
  | cons x rest ih =>
    cases rest with
    | nil => rfl
    | cons y r2 => exact ih

theorem dictFind?_eq_none_of_not_mem (m : List (String × α)) (k : String)
    (h : k ∉ keys m) : dictFind? m k = Option.none := by
  induction m with
  | nil => rfl
  | cons kv rest ih =>
    obtain ⟨k0, v0⟩ := kv
    simp only [keys, List.map_cons, List.mem_cons, not_or] at h
    have h0 : ¬k0 = k := fun hh => h.1 hh.symm
    simp only [dictFind?, if_neg h0]
    exact ih (by simpa [keys] using h.2)

theorem dictFind?_append_left (m l2 : List (String × α)) (k : String) (v : α)
    (h : dictFind? m k = some v) : dictFind? (m ++ l2) k = some v := by
  induction m with
  | nil => simp [dictFind?] at h
  | cons kv rest ih =>
    obtain ⟨k0, v0⟩ := kv
    by_cases h0 : k0 = k <;> simp_all [dictFind?]

theorem dictFind?_appendValue_self (m : MultiDict α) (k : String) (v : α) :
    dictFind? (MultiDict.appendValue m k v) k =
      some ((dictFind? m k).getD [] ++ [v]) := by
  cases h : dictFind? m k with
  | some l =>
    simp only [MultiDict.appendValue, h]
    simpa using dictFind?_dictSet_self m k (l ++ [v])
  | none =>
    simp only [MultiDict.appendValue, h]
    rw [dictFind?_append_of_none m _ k h]
    simp [dictFind?]

theorem dictFind?_appendValue_ne (m : MultiDict α) (k k' : String) (v : α)
    (h : k' ≠ k) : dictFind? (MultiDict.appendValue m k v) k' = dictFind? m k' := by
  cases hm : dictFind? m k with
  | some l =>
    simp only [MultiDict.appendValue, hm]
    exact dictFind?_dictSet_ne m k k' (l ++ [v]) h
  | none =>
    simp only [MultiDict.appendValue, hm]
    cases hk' : dictFind? m k' with
    | some w => exact dictFind?_append_left m _ k' w hk'
    | none =>
      rw [dictFind?_append_of_none m _ k' hk']
      have hne : ¬k = k' := fun hh => h hh.symm
      simp [dictFind?, hne]

theorem dictPop_subset (m : List (String × α)) (k : String) :
    ∀ kv ∈ (dictPop m k).2, kv ∈ m := by
  induction m with
  | nil => simp [dictPop]
  | cons kv0 rest ih =>
    obtain ⟨k0, v0⟩ := kv0
    by_cases h0 : k0 = k
    · simp only [dictPop, if_pos h0]
      intro kv hkv
      exact List.mem_cons_of_mem _ hkv
    · simp only [dictPop, if_neg h0]
      intro kv hkv
      rcases List.mem_cons.mp hkv with h | h
      · exact h ▸ List.mem_cons_self _ _
      · exact List.mem_cons_of_mem _ (ih kv h)

theorem dictFind?_dictPop_self (m : List (String × α)) (k : String)
    (h : (keys m).Nodup) : dictFind? (dictPop m k).2 k = Option.none := by
  induction m with
  | nil => rfl
  | cons kv0 rest ih =>
    obtain ⟨k0, v0⟩ := kv0
    simp only [keys, List.map_cons, List.nodup_cons] at h
    by_cases h0 : k0 = k
    · subst h0
      simp only [dictPop, if_pos rfl]
      exact dictFind?_eq_none_of_not_mem rest k0 (by simpa [keys] using h.1)
    · simp only [dictPop, if_neg h0, dictFind?, if_neg h0]
      exact ih (by simpa [keys] using h.2)

theorem nodup_keys_foldl_dictSet {β : Type} (l : List β) (fk : β → String) (fv : β → α)
    (acc : List (String × α)) (h : (keys acc).Nodup) :
    (keys (l.foldl (fun a b => dictSet a (fk b) (fv b)) acc)).Nodup := by
  induction l generalizing acc with
  | nil => simpa
  | cons b rest ih =>
    simp only [List.foldl_cons]
    exact ih _ (nodup_keys_dictSet acc (fk b) (fv b) h)

theorem nodup_keys_ofDictVal (d : List (String × Val)) :
    (keys (MultiDict.ofDictVal d)).Nodup :=
  nodup_keys_foldl_dictSet d (fun kv => kv.1.pyLower) (fun kv => kv.2.asList) [] (by simp [keys])

theorem mem_dictSet (m : List (String × α)) (k : String) (v : α) :
    ∀ kv ∈ dictSet m k v, kv ∈ m ∨ kv = (k, v) := by
  induction m with
  | nil => simp [dictSet]
  | cons kv0 rest ih =>
    obtain ⟨k0, v0⟩ := kv0
    by_cases h0 : k0 = k
    · subst h0
      simp only [dictSet, if_pos rfl]
      intro kv hkv
      rcases List.mem_cons.mp hkv with h | h
      · exact Or.inr h
      · exact Or.inl (List.mem_cons_of_mem _ h)
    · simp only [dictSet, if_neg h0]
      intro kv hkv
      rcases List.mem_cons.mp hkv with h | h
      · exact Or.inl (h ▸ List.mem_cons_self _ _)
      · rcases ih kv h with h2 | h2
        · exact Or.inl (List.mem_cons_of_mem _ h2)
        · exact Or.inr h2

theorem find?_foldl_dictSet_untouched (d : List (String × Val)) (acc : MultiDict Val)
    (k : String) (h : ∀ kv ∈ d, kv.1.pyLower ≠ k) :
    dictFind? (d.foldl (fun a kv => dictSet a kv.1.pyLower kv.2.asList) acc) k =
      dictFind? acc k := by
  induction d generalizing acc with
  | nil => rfl
  | cons kv0 rest ih =>
    simp only [List.foldl_cons]
    rw [ih _ (fun kv hkv => h kv (List.mem_cons_of_mem _ hkv))]
    exact dictFind?_dictSet_ne acc _ k _ (fun hh => h kv0 (List.mem_cons_self _ _) hh.symm)

theorem ofDictVal_foldl_find? (d : List (String × Val)) (acc : MultiDict Val)
    (hkeys : (d.map (fun kv => kv.1.pyLower)).Nodup) :
    ∀ kv ∈ d,
      dictFind? (d.foldl (fun a kv => dictSet a kv.1.pyLower kv.2.asList) acc) kv.1.pyLower =
        some kv.2.asList := by
  induction d generalizing acc with
  | nil => simp
  | cons kv0 rest ih =>
    simp only [List.map_cons, List.nodup_cons] at hkeys
    intro kv hkv
    rcases List.mem_cons.mp hkv with h | h
    · subst h
      simp only [List.foldl_cons]
      rw [find?_foldl_dictSet_untouched rest _ kv.1.pyLower
        (fun kv2 hkv2 hh => hkeys.1 (hh ▸ List.mem_map_of_mem _ hkv2))]
      exact dictFind?_dictSet_self acc kv.1.pyLower kv.2.asList
    · simp only [List.foldl_cons]
      exact ih _ hkeys.2 kv h

theorem Val.asList_of_not_list (v : Val) (h : v.isList = false) : v.asList = [v] := by
  cases v with
  | atom n => rfl
  | vlist l => simp [Val.isList] at h

end DictLemmas

/-! ## Claims about the MultiDict -/

/-- The invariant of claim C10: every key present in the structure maps
to a non-empty value list. -/
def MDInv {α : Type} (m : MultiDict α) : Prop := ∀ kv ∈ m, kv.2 ≠ []

instance MDInv.dec {α : Type} [DecidableEq α] (m : MultiDict α) : Decidable (MDInv m) :=
  show Decidable (∀ kv ∈ m, kv.2 ≠ []) from inferInstance

/-- C5 counterexample: `update` on a MultiDict holding value 1 under
key a, with a source carrying key a, discards the old value 1 — the
claim says values of `m` under shared keys are still present after the
update. -/
theorem C5_counterexample :
    Val.atom 1 ∉
      MultiDict.allGet (MultiDict.update [("a", [Val.atom 1])] [("a", Val.atom 2)]) "a" [] := by
  decide

/-- C5 (amended): `update(s)` collapses `s` into a plain dict (the last
occurrence of a key wins), normalizes it into a MultiDict (keys
lowercased, values wrapped as singleton sequences unless they are
already lists), and then performs a raw dict update: every key of the
normalized source has its whole value sequence replaced, while keys
absent from the source keep their previous values. -/
theorem C5_update_replaces_sequences :
    (∀ (m : MultiDict Val) (s : List (String × Val)) (k : String),
       dictFind? (MultiDict.ofDictVal (dictUpdate [] s)) k = Option.none →
       dictFind? (MultiDict.update m s) k = dictFind? m k) ∧
    (∀ (m : MultiDict Val) (s : List (String × Val)) (k : String) (l : List Val),
       dictFind? (MultiDict.ofDictVal (dictUpdate [] s)) k = some l →
       dictFind? (MultiDict.update m s) k = some l) := by
  constructor
  · intro m s k h
    show dictFind? (dictUpdate m (MultiDict.ofDictVal (dictUpdate [] s))) k = dictFind? m k
    rw [dictFind?_dictUpdate, lastVal?_eq_dictFind? _ _ (nodup_keys_ofDictVal _), h]
  · intro m s k l h
    show dictFind? (dictUpdate m (MultiDict.ofDictVal (dictUpdate [] s))) k = some l
    rw [dictFind?_dictUpdate, lastVal?_eq_dictFind? _ _ (nodup_keys_ofDictVal _), h]

/-- Witness for C5: with m = \x7ba: [1]\x7d and s = [(a, 2)], key a is
replaced wholesale by [2] and an untouched key b keeps its value. -/
theorem C5_update_replaces_sequences_witness :
    (dictFind? (MultiDict.ofDictVal (dictUpdate [] [("a", Val.atom 2)])) "b" = Option.none ∧
      dictFind? (MultiDict.update [("a", [Val.atom 1]), ("b", [Val.atom 7])] [("a", Val.atom 2)]) "b" =
        dictFind? [("a", [Val.atom 1]), ("b", [Val.atom 7])] "b") ∧
    (dictFind? (MultiDict.ofDictVal (dictUpdate [] [("a", Val.atom 2)])) "a" = some [Val.atom 2] ∧
      dictFind? (MultiDict.update [("a", [Val.atom 1]), ("b", [Val.atom 7])] [("a", Val.atom 2)]) "a" =
        some [Val.atom 2]) :=
  ⟨⟨by decide, C5_update_replaces_sequences.1 [("a", [Val.atom 1]), ("b", [Val.atom 7])]
      [("a", Val.atom 2)] "b" (by decide)⟩,
   ⟨by decide, C5_update_replaces_sequences.2 [("a", [Val.atom 1]), ("b", [Val.atom 7])]
      [("a", Val.atom 2)] "a" [Val.atom 2] (by decide)⟩⟩

/-- C8 counterexample: on a MultiDict already holding value 0 under key
k, inserting 1 then 2 and reading all values yields [0, 1, 2], not
[1, 2] as the claim states for every MultiDict. -/
theorem C8_counterexample :
    MultiDict.allGet
      (MultiDict.setitem (MultiDict.setitem [("k", [Val.atom 0])] "k" (Val.atom 1)) "k"
        (Val.atom 2)) "k" [] ≠ [Val.atom 1, Val.atom 2] := by
  decide

/-- C8 (amended): inserting v1 then v2 under case variants of a key and
then reading the single value through any case variant returns v2,
never v1; reading all values returns the values previously stored under
the key followed by [v1, v2] — exactly [v1, v2] when no case variant of
the key was present before. -/
theorem C8_last_write_wins {α : Type} (m : MultiDict α) (k1 k2 k3 : String) (v1 v2 : α)
    (h12 : k2.pyLower = k1.pyLower) (h13 : k3.pyLower = k1.pyLower) :
    MultiDict.getitem (MultiDict.setitem (MultiDict.setitem m k1 v1) k2 v2) k3 = some v2 ∧
    MultiDict.allGet (MultiDict.setitem (MultiDict.setitem m k1 v1) k2 v2) k3 [] =
      MultiDict.allGet m k1 [] ++ [v1, v2] := by
  have e2 : dictFind? (MultiDict.setitem (MultiDict.setitem m k1 v1) k2 v2) k1.pyLower =
      some (((dictFind? m k1.pyLower).getD [] ++ [v1]) ++ [v2]) := by
    simp only [MultiDict.setitem, h12]
    rw [dictFind?_appendValue_self, dictFind?_appendValue_self]
    simp
  constructor
  · simp only [MultiDict.getitem, h13, e2, Option.bind]
    exact getLast?_append_singleton _ v2
  · simp only [MultiDict.allGet, h13, e2, Option.getD]
    simp [MultiDict.allGet]

/-- Witness for C8: inserting 1 under key a and 2 under key A into the
empty MultiDict, then reading through key A, returns 2 and [1, 2]. -/
theorem C8_last_write_wins_witness :
    ("A".pyLower = "a".pyLower ∧ "A".pyLower = "a".pyLower) ∧
    (MultiDict.getitem (MultiDict.setitem (MultiDict.setitem [] "a" (Val.atom 1)) "A"
        (Val.atom 2)) "A" = some (Val.atom 2) ∧
      MultiDict.allGet (MultiDict.setitem (MultiDict.setitem [] "a" (Val.atom 1)) "A"
        (Val.atom 2)) "A" [] = MultiDict.allGet [] "a" [] ++ [Val.atom 1, Val.atom 2]) :=
  ⟨⟨by decide, by decide⟩,
   C8_last_write_wins [] "a" "A" "A" (Val.atom 1) (Val.atom 2) (by decide) (by decide)⟩

/-- C9 counterexample: the flat dict with keys A and a (values 1 and 2)
does not store a singleton for every key — both keys collapse to the
lowercased key a, which holds [2], so the entry for key A is lost. -/
theorem C9_counterexample :
    ¬ (∀ kv ∈ [("A", Val.atom 1), ("a", Val.atom 2)],
        dictFind? (MultiDict.ofDictVal [("A", Val.atom 1), ("a", Val.atom 2)]) kv.1.pyLower =
          some [kv.2]) := by
  decide

/-- C9 (amended): constructing a MultiDict from a flat dictionary (one
whose values are not lists) stores, for every key, the singleton of its
value under the lowercased key — provided no two keys of the dictionary
coincide after lowercasing. -/
theorem C9_flat_dict_singletons (d : List (String × Val))
    (hflat : ∀ kv ∈ d, kv.2.isList = false)
    (hkeys : (d.map (fun kv => kv.1.pyLower)).Nodup) :
    ∀ kv ∈ d, dictFind? (MultiDict.ofDictVal d) kv.1.pyLower = some [kv.2] := by
  intro kv hkv
  have := ofDictVal_foldl_find? d [] hkeys kv hkv
  rw [Val.asList_of_not_list kv.2 (hflat kv hkv)] at this
  exact this

/-- Witness for C9 at the flat dict \x7bA: 1, B: 2\x7d. -/
theorem C9_flat_dict_singletons_witness :
    ((∀ kv ∈ [("A", Val.atom 1), ("B", Val.atom 2)], kv.2.isList = false) ∧
      (([("A", Val.atom 1), ("B", Val.atom 2)].map (fun kv => kv.1.pyLower)).Nodup)) ∧
    (∀ kv ∈ [("A", Val.atom 1), ("B", Val.atom 2)],
      dictFind? (MultiDict.ofDictVal [("A", Val.atom 1), ("B", Val.atom 2)]) kv.1.pyLower =
        some [kv.2]) :=
  ⟨⟨by decide, by decide⟩,
   C9_flat_dict_singletons [("A", Val.atom 1), ("B", Val.atom 2)] (by decide) (by decide)⟩

/-- C10: `__setitem__`, `setdefault` and `pop` preserve the invariant
that every key present maps to a non-empty value list; `__setitem__`
appends to a list it creates if absent; `setdefault` inserts a
singleton only when the key is absent and leaves the structure alone
otherwise; `pop` removes only the most recent value when more than one
is present and removes the whole key otherwise. -/
theorem C10_operations_preserve_invariant {α : Type} :
    (∀ (m : MultiDict α) (k : String) (v : α), MDInv m → MDInv (MultiDict.setitem m k v)) ∧
    (∀ (m : MultiDict α) (k : String) (v : α), dictFind? m k.pyLower = Option.none →
       dictFind? (MultiDict.setitem m k v) k.pyLower = some [v]) ∧
    (∀ (m : MultiDict α) (k : String) (d : α), MDInv m → MDInv (MultiDict.setdefault m k d).2) ∧
    (∀ (m : MultiDict α) (k : String) (d : α), dictFind? m k.pyLower = Option.none →
       (MultiDict.setdefault m k d).2 = m ++ [(k.pyLower, [d])]) ∧
    (∀ (m : MultiDict α) (k : String) (d : α) (l : List α), dictFind? m k.pyLower = some l →
       (MultiDict.setdefault m k d).2 = m) ∧
    (∀ (m : MultiDict α) (k : String), MDInv m → MDInv (MultiDict.pop m k).2) ∧
    (∀ (m : MultiDict α) (k : String) (l : List α), dictFind? m k.pyLower = some l →
       1 < l.length → dictFind? (MultiDict.pop m k).2 k.pyLower = some l.dropLast) ∧
    (∀ (m : MultiDict α) (k : String) (l : List α), (keys m).Nodup →
       dictFind? m k.pyLower = some l → l.length ≤ 1 →
       dictFind? (MultiDict.pop m k).2 k.pyLower = Option.none) := by
  refine ⟨?_, ?_, ?_, ?_, ?_, ?_, ?_, ?_⟩
  · intro m k v hinv kv hkv
    rw [MultiDict.setitem, MultiDict.appendValue] at hkv
    cases hf : dictFind? m k.pyLower with
    | some l =>
      rw [hf] at hkv
      rcases mem_dictSet m k.pyLower (l ++ [v]) kv hkv with h | h
      · exact hinv kv h
      · subst h
        simp
    | none =>
      rw [hf] at hkv
      rcases List.mem_append.mp hkv with h | h
      · exact hinv kv h
      · simp only [List.mem_singleton] at h
        subst h
        simp
  · intro m k v h
    rw [MultiDict.setitem]
    have := dictFind?_appendValue_self m k.pyLower v
    rw [h] at this
    simpa using this
  · intro m k d hinv kv hkv
    rw [MultiDict.setdefault] at hkv
    simp only [dictSetdefault] at hkv
    cases hf : dictFind? m k.pyLower with
    | some l =>
      rw [hf] at hkv
      exact hinv kv hkv
    | none =>
      rw [hf] at hkv
      rcases List.mem_append.mp hkv with h | h
      · exact hinv kv h
      · simp only [List.mem_singleton] at h
        subst h
        simp
  · intro m k d h
    rw [MultiDict.setdefault]
    simp [dictSetdefault, h]
  · intro m k d l h
    rw [MultiDict.setdefault]
    simp [dictSetdefault, h]
  · intro m k hinv kv hkv
    rw [MultiDict.pop] at hkv
    simp only at hkv
    by_cases hlen : 1 < ((dictFind? m k.pyLower).getD []).length
    · rw [if_pos hlen] at hkv
      rcases mem_dictSet m k.pyLower _ kv hkv with h | h
      · exact hinv kv h
      · subst h
        show ((dictFind? m k.pyLower).getD []).dropLast ≠ []
        have hlen2 : 0 < ((dictFind? m k.pyLower).getD []).dropLast.length := by
          rw [List.length_dropLast]
          omega
        exact List.length_pos.mp hlen2
    · rw [if_neg hlen] at hkv
      exact hinv kv (dictPop_subset m k.pyLower kv hkv)
  · intro m k l h hlen
    rw [MultiDict.pop]
    simp only [h, Option.getD_some, if_pos hlen]
    exact dictFind?_dictSet_self m k.pyLower l.dropLast
  · intro m k l hnd h hlen
    rw [MultiDict.pop]
    have hnot : ¬ 1 < ((dictFind? m k.pyLower).getD []).length := by
      rw [h]
      simpa using hlen
    simp only [if_neg hnot]
    exact dictFind?_dictPop_self m k.pyLower hnd

/-- Witness for C10 at concrete Nat-valued MultiDicts: insertion into
an absent and a present key, setdefault on both, and pop with two
values and with one value. -/
theorem C10_operations_preserve_invariant_witness :
    (MDInv ([("a", [1])] : MultiDict Nat) ∧
      MDInv (MultiDict.setitem [("a", [1])] "b" 2)) ∧
    (dictFind? ([("a", [1])] : MultiDict Nat) "b".pyLower = Option.none ∧
      dictFind? (MultiDict.setitem [("a", [1])] "b" 2) "b".pyLower = some [2]) ∧
    ((MultiDict.setdefault ([("a", [1])] : MultiDict Nat) "b" 9).2 =
      [("a", [1])] ++ [("b".pyLower, [9])]) ∧
    ((MultiDict.setdefault ([("a", [1])] : MultiDict Nat) "a" 9).2 = [("a", [1])]) ∧
    (dictFind? (MultiDict.pop ([("a", [1, 2])] : MultiDict Nat) "a").2 "a".pyLower =
      some [1, 2].dropLast) ∧
    (dictFind? (MultiDict.pop ([("a", [1])] : MultiDict Nat) "a").2 "a".pyLower =
      Option.none) :=
  ⟨⟨by decide, C10_operations_preserve_invariant.1 [("a", [1])] "b" 2 (by decide)⟩,
   ⟨by decide, C10_operations_preserve_invariant.2.1 [("a", [1])] "b" 2 (by decide)⟩,
   C10_operations_preserve_invariant.2.2.2.1 [("a", [1])] "b" 9 (by decide),
   C10_operations_preserve_invariant.2.2.2.2.1 [("a", [1])] "a" 9 [1] (by decide),
   C10_operations_preserve_invariant.2.2.2.2.2.2.1 [("a", [1, 2])] "a" [1, 2] (by decide)
     (by decide),
   C10_operations_preserve_invariant.2.2.2.2.2.2.2 [("a", [1])] "a" [1] (by decide) (by decide)
     (by decide)⟩

/-! ## Claims about the lifespan branch -/

/-- C6 counterexample: with a single failing shutdown function the
lifespan loop emits only the shutdown-failed event — no
shutdown-complete event is emitted, although the claim requires one
regardless of failure. -/
theorem C6_counterexample :
    OutEvent.shutdownComplete ∉
      lifespanLoop [] [fun _ => Except.error ⟨"RuntimeError", "boom"⟩] []
        [LSEvent.shutdown] := by
  decide

/-- C6 (amended): on a shutdown event the registered shutdown functions
run in registration order (running a concatenation runs the first list
to completion and then the second); on the first failure a
shutdown-failed event carrying the failure description is emitted and
the loop terminates without emitting shutdown-complete; on success a
shutdown-complete event is emitted and the loop terminates.  In both
cases no further lifespan events are consumed. -/
theorem C6_shutdown_events :
    (∀ (fs gs : List LifeFn) (st : List (String × String)),
       runFns (fs ++ gs) st =
         match runFns fs st with
         | .error e => .error e
         | .ok st2 => runFns gs st2) ∧
    (∀ (su fs : List LifeFn) (st : List (String × String)) (e : PyErr)
       (rest : List LSEvent), runFns fs st = .error e →
       lifespanLoop su fs st (.shutdown :: rest) = [.shutdownFailed (errMessage e)]) ∧
    (∀ (su fs : List LifeFn) (st st2 : List (String × String)) (rest : List LSEvent),
       runFns fs st = .ok st2 →
       lifespanLoop su fs st (.shutdown :: rest) = [.shutdownComplete]) := by
  refine ⟨?_, ?_, ?_⟩
  · intro fs gs st
    induction fs generalizing st with
    | nil => rfl
    | cons f rest ih =>
      cases hf : f st with
      | error e => simp [runFns, hf]
      | ok st2 =>
        simp only [List.cons_append, runFns, hf]
        exact ih st2
  · intro su fs st e rest h
    simp [lifespanLoop, h]
  · intro su fs st st2 rest h
    simp [lifespanLoop, h]

/-- A shutdown function that succeeds, for the C6 witness. -/
def okFn : LifeFn := fun st => Except.ok st

/-- A shutdown function that raises, for the C6 witness. -/
def failFn : LifeFn := fun _ => Except.error ⟨"E", "x"⟩

/-- Witness for C6: a two-function shutdown chain where the second
function fails emits exactly the shutdown-failed event, and a
succeeding chain emits exactly shutdown-complete. -/
theorem C6_shutdown_events_witness :
    (runFns ([okFn] ++ [failFn]) [] =
      match runFns [okFn] ([] : List (String × String)) with
      | .error e => .error e
      | .ok st2 => runFns [failFn] st2) ∧
    (lifespanLoop [] [failFn] [] [.shutdown, .shutdown] =
      [.shutdownFailed (errMessage ⟨"E", "x"⟩)]) ∧
    (lifespanLoop [] [okFn] [] [.shutdown, .shutdown] = [.shutdownComplete]) :=
  ⟨C6_shutdown_events.1 [okFn] [failFn] [],
   C6_shutdown_events.2.1 [] [failFn] [] ⟨"E", "x"⟩ [.shutdown] rfl,
   C6_shutdown_events.2.2 [] [okFn] [] [] [.shutdown] rfl⟩

/-! ## Claims about response normalization and the serializer -/

/-- C3: a handler-returned mapping normalizes to status 200 with JSON
content type, but its body is serialized by the default serializer of a
fresh Response (the standard JSON encoder) — the serializer configured
on the application is never consulted: two applications differing only
in their serializer produce identical transaction outcomes. -/
theorem C3_configured_serializer_unused :
    (∀ d : List (String × JVal),
       ∃ r, Resp.from_any (.dict d) = some r ∧ r.status = 200 ∧
         MultiDict.get r.headers "content-type" "" = some MediaType.JSON ∧
         r.body = defaultDumps d) ∧
    (∀ (app : App) (s : List (String × JVal) → String) (e : Ext) (scope : Scope)
       (chunks : List Chunk),
       httpCall { app with serializer := s } e scope chunks = httpCall app e scope chunks) := by
  constructor
  · intro d
    refine ⟨_, rfl, rfl, ?_, rfl⟩
    rfl
  · intro app s e scope chunks
    rfl

/-! ## Claims about routing -/

/-- C2: route resolution is first-full-match in registration order —
with every earlier pattern failing to match, resolution of the whole
table equals resolution of the single matching route, whatever comes
after it; when the matched route's method table contains the request
method, the handler runs on the request with the named captures as path
params and its normalized value is the response; when no pattern
matches, the response has status 404. -/
theorem C2_first_full_match_wins :
    (∀ (pre post : List (Pattern × List (String × Handler)))
       (pat : Pattern) (ms : List (String × Handler)) (req : Request),
       (∀ r ∈ pre, r.1.fullmatch req.path = Option.none) →
       (pat.fullmatch req.path).isSome = true →
       routePhase (pre ++ (pat, ms) :: post) req = routePhase [(pat, ms)] req) ∧
    (∀ (pat : Pattern) (ms : List (String × Handler)) (req : Request)
       (g : List (String × String)) (f : Handler) (ret : Ret) (resp : Resp),
       pat.fullmatch req.path = some g →
       dictFind? ms req.method = some f →
       f { req with params := g } = Except.ok ret →
       Resp.from_any ret = some resp →
       routePhase [(pat, ms)] req = .done { req with params := g } resp true) ∧
    (∀ (routes : List (Pattern × List (String × Handler))) (req : Request),
       (∀ r ∈ routes, r.1.fullmatch req.path = Option.none) →
       ∃ resp, routePhase routes req = .done req resp false ∧ resp.status = 404) := by
  refine ⟨?_, ?_, ?_⟩
  · intro pre post pat ms req hpre hsome
    induction pre with
    | nil =>
      cases h : pat.fullmatch req.path with
      | none => rw [h] at hsome; simp at hsome
      | some g => simp [routePhase, h]
    | cons r pre' ih =>
      obtain ⟨p0, m0⟩ := r
      have h0 : p0.fullmatch req.path = Option.none :=
        hpre (p0, m0) (List.mem_cons_self _ _)
      have := ih (fun r hr => hpre r (List.mem_cons_of_mem _ hr))
      simpa [routePhase, h0] using this
  · intro pat ms req g f ret resp hg hf hret hfa
    simp [routePhase, hg, hf, hret, hfa]
  · intro routes req hnone
    induction routes with
    | nil => exact ⟨Resp.make 404 .noneArg "", rfl, rfl⟩
    | cons r rest ih =>
      obtain ⟨p0, m0⟩ := r
      have h0 : p0.fullmatch req.path = Option.none :=
        hnone (p0, m0) (List.mem_cons_self _ _)
      have := ih (fun r hr => hnone r (List.mem_cons_of_mem _ hr))
      simpa [routePhase, h0] using this

/-- A literal path pattern (matches exactly one path, no captures),
used as a concrete compiled route in witnesses. -/
def litPat (s : String) : Pattern := ⟨fun p => if p = s then some [] else Option.none⟩

/-- A concrete handler returning a text body, used in witnesses. -/
def hGet : Handler := fun _ => Except.ok (.str "hi")

/-- A concrete request for witnesses: the given method and path with
everything else empty. -/
def mkReq (method path : String) : Request :=
  { method := method, path := path, ip := "", params := [], args := [], headers := []
    body := "", json := Option.none, form := [], state := [] }

/-- Witness for C2: a non-matching route is skipped and resolution on
path /x equals resolution of the single /x route regardless of a later
overlapping route; the GET handler runs with empty captures; an
unmatched table yields 404. -/
theorem C2_first_full_match_wins_witness :
    (routePhase ([(litPat "/y", [])] ++ (litPat "/x", [("GET", hGet)]) ::
        [(litPat "/x", [("POST", hGet)])]) (mkReq "GET" "/x") =
      routePhase [(litPat "/x", [("GET", hGet)])] (mkReq "GET" "/x")) ∧
    (routePhase [(litPat "/x", [("GET", hGet)])] (mkReq "GET" "/x") =
      .done { mkReq "GET" "/x" with params := [] } (Resp.make 200 .noneArg "hi") true) ∧
    (∃ resp, routePhase [(litPat "/y", [])] (mkReq "GET" "/zzz") =
      .done (mkReq "GET" "/zzz") resp false ∧ resp.status = 404) :=
  ⟨C2_first_full_match_wins.1 [(litPat "/y", [])] [(litPat "/x", [("POST", hGet)])]
      (litPat "/x") [("GET", hGet)] (mkReq "GET" "/x")
      (fun r hr => by rw [List.mem_singleton] at hr; subst hr; rfl) rfl,
   C2_first_full_match_wins.2.1 (litPat "/x") [("GET", hGet)] (mkReq "GET" "/x")
      [] hGet (.str "hi") (Resp.make 200 .noneArg "hi") rfl rfl rfl rfl,
   C2_first_full_match_wins.2.2 [(litPat "/y", [])] (mkReq "GET" "/zzz")
      (fun r hr => by rw [List.mem_singleton] at hr; subst hr; rfl)⟩

/-- C7: when the path fully matches a route (all earlier routes not
matching) but the method is not registered for it, the response has
status 405 and its Allow header is exactly the comma-joined list of the
methods registered for that pattern. -/
theorem C7_method_not_allowed (pre post : List (Pattern × List (String × Handler)))
    (pat : Pattern) (ms : List (String × Handler)) (req : Request)
    (g : List (String × String))
    (hpre : ∀ r ∈ pre, r.1.fullmatch req.path = Option.none)
    (hg : pat.fullmatch req.path = some g)
    (hm : dictFind? ms req.method = Option.none) :
    ∃ resp,
      routePhase (pre ++ (pat, ms) :: post) req = .done { req with params := g } resp false ∧
      resp.status = 405 ∧
      MultiDict.get resp.headers "allow" "" =
        some (String.intercalate ", " (ms.map Prod.fst)) := by
  induction pre with
  | nil =>
    have heq : routePhase ([] ++ (pat, ms) :: post) req =
        .done { req with params := g }
          { Resp.make 405 .noneArg "" with
            headers := MultiDict.setitem (Resp.make 405 .noneArg "").headers "allow"
              (String.intercalate ", " (ms.map Prod.fst)) } false := by
      simp [routePhase, hg, hm]
    exact ⟨_, heq, rfl, rfl⟩
  | cons r pre' ih =>
    obtain ⟨p0, m0⟩ := r
    have h0 : p0.fullmatch req.path = Option.none := hpre (p0, m0) (List.mem_cons_self _ _)
    have := ih (fun r hr => hpre r (List.mem_cons_of_mem _ hr))
    simpa [routePhase, h0] using this

/-- Witness for C7, the end-to-end shape of the claim: only POST /x is
registered and a GET /x resolves to 405 with Allow: POST. -/
theorem C7_method_not_allowed_witness :
    ∃ resp,
      routePhase ([] ++ (litPat "/x", [("POST", hGet)]) :: []) (mkReq "GET" "/x") =
        .done { mkReq "GET" "/x" with params := [] } resp false ∧
      resp.status = 405 ∧
      MultiDict.get resp.headers "allow" "" =
        some (String.intercalate ", " ([("POST", hGet)].map Prod.fst)) :=
  C7_method_not_allowed [] [] (litPat "/x") [("POST", hGet)] (mkReq "GET" "/x") []
    (fun r hr => absurd hr (List.not_mem_nil r)) rfl rfl

/-! ## Claims about the body size cap -/

theorem bodyLoop_tooLarge_stable (maxc : Nat) (acc b : String)
    (chunks chunks' : List Chunk) (n : Nat)
    (h : bodyLoop maxc acc chunks = (.tooLarge b, n))
    (htake : chunks'.take n = chunks.take n) :
    bodyLoop maxc acc chunks' = (.tooLarge b, n) := by
  induction chunks generalizing acc chunks' n with
  | nil => simp [bodyLoop] at h
  | cons c rest ih =>
    by_cases hov : maxc < (acc ++ c.body).length
    · rw [bodyLoop, if_pos hov] at h
      have hb : BodyOut.tooLarge (acc ++ c.body) = BodyOut.tooLarge b := congrArg Prod.fst h
      have hn : n = 1 := (congrArg Prod.snd h).symm
      subst hn
      cases chunks' with
      | nil => simp [List.take] at htake
      | cons c' rest' =>
        simp only [List.take, List.cons.injEq] at htake
        rw [htake.1, bodyLoop, if_pos hov, hb]
    · rw [bodyLoop, if_neg hov] at h
      by_cases hmb : c.more_body = true
      · rw [if_pos hmb] at h
        have h1 : (bodyLoop maxc (acc ++ c.body) rest).1 = BodyOut.tooLarge b :=
          congrArg Prod.fst h
        have h2 : (bodyLoop maxc (acc ++ c.body) rest).2 + 1 = n := congrArg Prod.snd h
        obtain ⟨n0, rfl⟩ : ∃ n0, n = n0 + 1 := ⟨_, h2.symm⟩
        have hn0 : (bodyLoop maxc (acc ++ c.body) rest).2 = n0 := by omega
        cases chunks' with
        | nil => simp [List.take] at htake
        | cons c' rest' =>
          simp only [List.take, List.cons.injEq] at htake
          have hrest : bodyLoop maxc (acc ++ c.body) rest' = (.tooLarge b, n0) := by
            apply ih _ _ _ _ htake.2
            rw [← h1, ← hn0]
          rw [htake.1, bodyLoop, if_neg hov, if_pos hmb, hrest]
      · rw [if_neg hmb] at h
        have : BodyOut.ok (acc ++ c.body) = BodyOut.tooLarge b := congrArg Prod.fst h
        simp at this

/-- C1: when the accumulated body exceeds max_content (with header
decoding and cookie parsing having succeeded, and no after-hooks to
override the response), the transaction yields a response with status
413, no route handler is invoked, exactly the chunks up to the
overflowing one are consumed, and any chunk stream agreeing on that
consumed prefix produces the identical outcome (consumption stops at
the overflow). -/
theorem C1_oversized_body_413 (app : App) (e : Ext) (scope : Scope) (chunks : List Chunk)
    (r1 : Request) (b : String) (n : Nat)
    (hafter : app.after = [])
    (h1 : headersPhase scope (initRequest scope) = .next r1)
    (h2 : cookiePhase e r1 = .next r1)
    (hbody : bodyLoop app.max_content "" chunks = (.tooLarge b, n)) :
    (∃ t, httpCall app e scope chunks = some t ∧
       t.response.status = 413 ∧ t.handlerCalled = false ∧ t.chunksConsumed = n) ∧
    (∀ chunks', chunks'.take n = chunks.take n →
       httpCall app e scope chunks' = httpCall app e scope chunks) := by
  have htry : tryPhase app e scope chunks =
      .done { r1 with body := b } (Resp.make 413 .noneArg "") false n := by
    unfold tryPhase
    simp only [h1, h2, hbody]
  have hcall : httpCall app e scope chunks =
      some { response := finalize (Resp.make 413 .noneArg ""), handlerCalled := false,
             chunksConsumed := n } := by
    unfold httpCall
    simp only [htry, hafter, afterPhase]
  constructor
  · exact ⟨_, hcall, rfl, rfl, rfl⟩
  · intro chunks' htake
    have hb' := bodyLoop_tooLarge_stable app.max_content "" b chunks chunks' n hbody htake
    have htry' : tryPhase app e scope chunks' =
        .done { r1 with body := b } (Resp.make 413 .noneArg "") false n := by
      unfold tryPhase
      simp only [h1, h2, hb']
    unfold httpCall
    simp only [htry, htry']

/-- The application used by the pipeline witnesses: no routes or hooks,
max_content of 3. -/
def appW : App :=
  { routes := [], before := [], after := [], serializer := defaultDumps, max_content := 3 }

/-- The external collaborators used by the pipeline witnesses. -/
def extW : Ext :=
  { cookieLoadOk := fun _ => true, jsonLoads := fun _ => Option.none, parseQS := fun _ => [] }

/-- The connection scope used by the pipeline witnesses: a GET / with
no raw headers. -/
def scopeW : Scope :=
  { method := "GET", path := "/", client := "", query := [], headers := [], state := [] }

/-- Witness for C1: a first chunk of four bytes against a cap of three
yields a 413 outcome after one consumed chunk, whatever follows. -/
theorem C1_oversized_body_413_witness :
    ((∃ t, httpCall appW extW scopeW [⟨"abcd", true⟩, ⟨"x", false⟩] = some t ∧
        t.response.status = 413 ∧ t.handlerCalled = false ∧ t.chunksConsumed = 1) ∧
     (∀ chunks', chunks'.take 1 = [Chunk.mk "abcd" true, Chunk.mk "x" false].take 1 →
        httpCall appW extW scopeW chunks' =
          httpCall appW extW scopeW [Chunk.mk "abcd" true, Chunk.mk "x" false])) :=
  C1_oversized_body_413 appW extW scopeW [⟨"abcd", true⟩, ⟨"x", false⟩]
    { initRequest scopeW with headers := MultiDict.ofPairs [] } "abcd" 1
    rfl rfl rfl rfl

/-! ## Claims about the after-chain -/

/-- C4: whatever the try-block produced — including the early 400 of a
header decode failure, which never reaches the body loop or the
routes — the after-chain runs over the current response and the
transaction outcome is its result; and a truthy after-hook return value
replaces the in-flight response with its normalization, the remaining
after-hooks never running (the result does not depend on them). -/
theorem C4_after_chain_always_runs :
    (∀ (app : App) (e : Ext) (scope : Scope) (chunks : List Chunk) (req : Request)
       (resp : Resp) (hc : Bool) (n : Nat),
       tryPhase app e scope chunks = .done req resp hc n →
       httpCall app e scope chunks =
         (afterPhase app.after req resp).map
           (fun r2 => { response := finalize r2, handlerCalled := hc, chunksConsumed := n })) ∧
    (∀ (app : App) (e : Ext) (scope : Scope) (chunks : List Chunk),
       decodePairs scope.headers = Option.none →
       httpCall app e scope chunks =
         (afterPhase app.after (initRequest scope) (Resp.make 400 .noneArg "")).map
           (fun r2 => { response := finalize r2, handlerCalled := false,
                        chunksConsumed := 0 })) ∧
    (∀ (f : AfterHook) (fs : List AfterHook) (req : Request) (resp : Resp) (ret : Ret)
       (r2 : Resp),
       f req resp = Except.ok ret → ret.truthy = true → Resp.from_any ret = some r2 →
       afterPhase (f :: fs) req resp = some r2) := by
  refine ⟨?_, ?_, ?_⟩
  · intro app e scope chunks req resp hc n h
    unfold httpCall
    rw [h]
    cases ha : afterPhase app.after req resp <;> simp [ha]
  · intro app e scope chunks h
    have htry : tryPhase app e scope chunks =
        .done (initRequest scope) (Resp.make 400 .noneArg "") false 0 := by
      unfold tryPhase headersPhase
      simp only [h]
    unfold httpCall
    rw [htry]
    cases ha : afterPhase app.after (initRequest scope) (Resp.make 400 .noneArg "") <;>
      simp [ha]
  · intro f fs req resp ret r2 hf ht hfa
    unfold afterPhase
    rw [hf]
    simp [ht, hfa]

/-- An after-hook that unconditionally overrides the response with the
text no, used in the C4 witness. -/
def overrideHook : AfterHook := fun _ _ => Except.ok (.str "no")

/-- The witness scope for C4: a single undecodable raw header, so
header decoding fails with an early 400. -/
def scopeBad : Scope :=
  { method := "GET", path := "/", client := "", query := [],
    headers := [(HVal.invalid, HVal.valid "v")], state := [] }

/-- The witness application for C4: one overriding after-hook. -/
def appAfterW : App :=
  { routes := [], before := [], after := [overrideHook], serializer := defaultDumps,
    max_content := 3 }

/-- Witness for C4: with header decoding failing, the transaction
outcome is the after-chain result over the early 400 — and the
overriding after-hook replaces the response for any tail of later
hooks. -/
theorem C4_after_chain_always_runs_witness :
    (httpCall appAfterW extW scopeBad [] =
      (afterPhase appAfterW.after (initRequest scopeBad) (Resp.make 400 .noneArg "")).map
        (fun r2 => { response := finalize r2, handlerCalled := false,
                     chunksConsumed := 0 })) ∧
    (afterPhase (overrideHook :: [overrideHook]) (initRequest scopeBad)
        (Resp.make 400 .noneArg "") = some (Resp.make 200 .noneArg "no")) :=
  ⟨C4_after_chain_always_runs.2.1 appAfterW extW scopeBad [] rfl,
   C4_after_chain_always_runs.2.2 overrideHook [overrideHook] (initRequest scopeBad)
     (Resp.make 400 .noneArg "") (.str "no") (Resp.make 200 .noneArg "no") rfl rfl rfl⟩

end NanoHTTP
